import Mathlib

/-!
Shallow embedding of `scapy/layers/tls/cert.py` (PKI objects: certificates,
CRLs, keys, trust chains) for checking its natural-language specification.

Byte strings are modelled as `List Nat` (each entry an octet / character code).
External collaborators (the ASN.1 structured decoder and the cryptography
provider) are modelled as abstract function parameters; signature verification
is a Boolean oracle `V : Nat → Cert → Bool` where `V k c` stands for
"the public key with handle `k` verifies the signature of certificate `c`".
-/

/--
A certificate as the chain/revocation logic of `cert.py` sees it.
`issuer_hash`/`subject_hash` model `hash(issuer_str)`/`hash(subject_str)`;
`pubKeyId` is the handle of `self.pubKey`; `signerKeyId` names the key that
actually produced the signature (used only to instantiate the verification
oracle on concrete examples); `notAfter` is `time.mktime(self.notAfter)`;
`issuer` is a token standing for the structured issuer name.
-/
structure Cert where
  issuer_hash : Int
  subject_hash : Int
  pubKeyId : Nat
  signerKeyId : Nat
  notAfter : Int
  serial : Int
  authorityKeyID : Option Int
  issuer : Int
deriving DecidableEq

/-- `Cert.isIssuerCert` (cert.py:803-811): true if `other` issued `self`. -/
def isIssuerCert (V : Nat → Cert → Bool) (self other : Cert) : Bool :=
  if self.issuer_hash ≠ other.subject_hash then false
  else V other.pubKeyId self

/-- `Cert.isSelfSigned` (cert.py:813-821). -/
def isSelfSigned (V : Nat → Cert → Bool) (c : Cert) : Bool :=
  if c.issuer_hash = c.subject_hash then isIssuerCert V c c else false

/-- The reference time argument of `Cert.remainingDays` (cert.py:861-896):
`None`, a time tuple (modelled by its `mktime` value in seconds), or a string. -/
inductive TimeRef where
  | tnone : TimeRef
  | tup : Int → TimeRef
  | tstr : List Nat → TimeRef

/-- The final computation of `Cert.remainingDays`:
`diff = (mktime(notAfter) - mktime(now)) / (24. * 3600)`, as an exact rational. -/
def remainingDaysAt (c : Cert) (nowSec : Int) : ℚ :=
  mkRat (c.notAfter - nowSec) 86400

/-- `Cert.remainingDays` (cert.py:861-896).  `p1` models
`time.strptime(·, "%m/%d/%y")` and `p2` models
`time.strptime(·, "%b %d %H:%M:%S %Y %Z")` (both external); a parse failure
(`none`) degrades to `localNow` (the code warns and uses `time.localtime()`).
`47` is the code of `'/'`. -/
def remainingDays (p1 p2 : List Nat → Option Int) (localNow : Int) (c : Cert) :
    TimeRef → ℚ
  | .tnone => remainingDaysAt c localNow
  | .tup t => remainingDaysAt c t
  | .tstr s =>
    if s.contains 47 then remainingDaysAt c ((p1 s).getD localNow)
    else remainingDaysAt c ((p2 s).getD localNow)

/-- Scan a list for the first element satisfying `p`; return it together with
the list with that element removed (the `for`/`break` + `list.remove` pattern
used twice in `Chain.__init__`, cert.py:1089-1102). -/
def extractFirst (p : Cert → Bool) : List Cert → Option (Cert × List Cert)
  | [] => none
  | c :: rest =>
    if p c then some (c, rest)
    else
      match extractFirst p rest with
      | none => none
      | some (x, r) => some (x, c :: r)

/-- The growth loop of `Chain.__init__` (cert.py:1095-1105): repeatedly scan
the pool for the first element issued by the current tail, append it and
remove it from the pool.  Each iteration removes exactly one pool element, so
fuel `pool.length` realises the `while certList:` loop exactly. -/
def growChainAux (V : Nat → Cert → Bool) :
    Nat → List Cert → Cert → List Cert → List Cert
  | 0, chain, _, _ => chain
  | n + 1, chain, tail, pool =>
    match extractFirst (fun c => isIssuerCert V c tail) pool with
    | none => chain
    | some (c, rest) => growChainAux V n (chain ++ [c]) c rest

/-- `Chain.__init__` (cert.py:1071-1105): seed with `cert0` when given, else
with the first self-signed pool member; then grow. -/
def mkChain (V : Nat → Cert → Bool) (certList : List Cert) (cert0 : Option Cert) :
    List Cert :=
  match cert0 with
  | some c0 => growChainAux V certList.length [c0] c0 certList
  | none =>
    match extractFirst (isSelfSigned V) certList with
    | none => []
    | some (r, rest) => growChainAux V rest.length [r] r rest

/-- `Chain.verifyChain` (cert.py:1107-1127).  `loc` is the current local time
(`remainingDays` is called with `now=None` there).  The date walk mirrors the
source exactly: `c` ends up being the first expired member if any, else the
last element, and the chain is returned iff that `c` equals `chain[-1]`. -/
def verifyChain (V : Nat → Cert → Bool) (selfC : List Cert) (loc : Int) :
    List Cert → List Cert → Option (List Cert)
  | [], _ => none
  | a :: restAnchors, untrusted =>
    let chain := mkChain V (selfC ++ untrusted) (some a)
    if chain.length = 1 then verifyChain V selfC loc restAnchors untrusted
    else if selfC.any (fun c => decide (c ∈ chain.drop 1)) then
      let lastC := (chain.getLast?).getD a
      let cend := (chain.find? (fun c => decide (remainingDaysAt c loc < 0))).getD lastC
      if cend = lastC then some chain
      else verifyChain V selfC loc restAnchors untrusted
    else verifyChain V selfC loc restAnchors untrusted

/-- A CRL as `Cert.isRevoked` sees it (cf. `CRL.import_from_asn1pkt`,
cert.py:982-1042): the authority key identifier, the issuer-name token, and
the `(serial, revocationDate)` entries (the date is a token here). -/
structure CRL where
  authorityKeyID : Option Int
  issuer : Int
  revoked_cert_serials : List (Int × Int)
deriving DecidableEq

/-- `Cert.isRevoked` (cert.py:898-921). -/
def isRevoked (c : Cert) : List CRL → Bool
  | [] => false
  | r :: rest =>
    if c.authorityKeyID.isSome ∧ r.authorityKeyID.isSome ∧
        c.authorityKeyID = r.authorityKeyID then
      (r.revoked_cert_serials.map Prod.fst).contains c.serial
    else if c.issuer = r.issuer then
      (r.revoked_cert_serials.map Prod.fst).contains c.serial
    else isRevoked c rest

/-- A CRL "matches" a certificate when the per-CRL test of `isRevoked` takes
one of its two deciding branches: matching authority key identifiers (both
present), or else equal issuers. -/
def crlMatches (c : Cert) (r : CRL) : Bool :=
  decide ((c.authorityKeyID.isSome ∧ r.authorityKeyID.isSome ∧
    c.authorityKeyID = r.authorityKeyID) ∨ c.issuer = r.issuer)

/-! ### Type resolution (the `_PrivKeyFactory` / `_PubKeyFactory` metaclasses) -/

/-- The concrete class assigned to a private key by `_PrivKeyFactory`. -/
inductive PrivKeyClass where
  | rsa | ecdsa | eddsa
deriving DecidableEq

/-- `_PrivKeyFactory.__call__` (cert.py:454-504): nested try/except over the
five candidate structural decoders, each modelled as an abstract predicate on
the DER bytes (`d1` = `RSAPrivateKey_OpenSSL`, `d2` = `ECDSAPrivateKey_OpenSSL`,
`d3` = `RSAPrivateKey`, `d4` = `ECDSAPrivateKey`, `d5` = `EdDSAPrivateKey`).
`none` models `raise Exception("Unable to import private key")`. -/
def privKeyResolve (d1 d2 d3 d4 d5 : List Nat → Bool) (der : List Nat) :
    Option PrivKeyClass :=
  if d1 der then some .rsa
  else if d2 der then some .ecdsa
  else if d3 der then some .rsa
  else if d4 der then some .ecdsa
  else if d5 der then some .eddsa
  else none

/-- The fixed priority order of the private-key candidates, with the class
each one yields on success. -/
def privTrialOrder (d1 d2 d3 d4 d5 : List Nat → Bool) :
    List ((List Nat → Bool) × PrivKeyClass) :=
  [(d1, .rsa), (d2, .ecdsa), (d3, .rsa), (d4, .ecdsa), (d5, .eddsa)]

/-- Outcome of parsing DER bytes as an `X509_SubjectPublicKeyInfo`:
which sub-form the wrapped key is, `subOther` for a successful parse whose
`subjectPublicKey` is none of the three known forms (the bare `raise` branch,
cert.py:255), `none`-valued function result for a failed parse. -/
inductive SpkiSub where
  | subRsa | subEcdsa | subEddsa | subOther
deriving DecidableEq

/-- The concrete class assigned to a public key by `_PubKeyFactory`. -/
inductive PubKeyClass where
  | rsa | ecdsa | eddsa
deriving DecidableEq

/-- `_PubKeyFactory.__call__` (cert.py:241-268): try the
SubjectPublicKeyInfo-wrapped decode (`spki`, distinguishing the RSA/ECDSA/EdDSA
sub-forms; any failure inside the branch raises into the fallback), then fall
back to a bare `RSAPublicKey` decode (`bareRSA`); `none` models
`raise Exception("Unable to import public key")`. -/
def pubKeyResolve (spki : List Nat → Option SpkiSub) (bareRSA : List Nat → Bool)
    (der : List Nat) : Option PubKeyClass :=
  match spki der with
  | some .subRsa => some .rsa
  | some .subEcdsa => some .ecdsa
  | some .subEddsa => some .eddsa
  | some .subOther => if bareRSA der then some .rsa else none
  | none => if bareRSA der then some .rsa else none

/-! ### Key-object variant tagging (`PrivKeyECDSA` / `PrivKeyEdDSA`) -/

/-- Key algorithm families. -/
inductive KeyVariant where
  | rsa | ecdsa | eddsa
deriving DecidableEq

/-- A `PubKey` object: the class it was given (`tag`) and the algorithm of the
underlying `cryptography` handle it wraps. -/
structure PubKeyObj where
  tag : KeyVariant
  handleAlg : KeyVariant
deriving DecidableEq

/-- A `PrivKey` object: the algorithm of `self.key` and the derived `pubkey`. -/
structure PrivKeyObj where
  keyAlg : KeyVariant
  pubkey : PubKeyObj
deriving DecidableEq

/-- `PrivKeyECDSA.fill_and_store` / `import_from_asn1pkt` (cert.py:668-680):
`self.key` is an EC key and `self.pubkey = PubKeyECDSA(cryptography_obj=
self.key.public_key())` — an ECDSA-tagged object wrapping an EC handle. -/
def privKeyECDSA_build : PrivKeyObj :=
  { keyAlg := .ecdsa, pubkey := { tag := .ecdsa, handleAlg := .ecdsa } }

/-- `PrivKeyEdDSA.fill_and_store` / `import_from_asn1pkt` (cert.py:696-708):
`self.key` is an EdDSA key but `self.pubkey = PubKeyECDSA(cryptography_obj=
self.key.public_key())` — the object is tagged `PubKeyECDSA` while wrapping an
EdDSA handle. -/
def privKeyEdDSA_build : PrivKeyObj :=
  { keyAlg := .eddsa, pubkey := { tag := .ecdsa, handleAlg := .eddsa } }

/-! ### PEM codec (`der2pem` / `pem2der` / `split_pem`) and `_PKIObjMaker` -/

/-- The standard base64 alphabet (`base64.b64encode`, external stdlib):
character code of sextet `n`. -/
def b64char (n : Nat) : Nat :=
  if n < 26 then 65 + n
  else if n < 52 then 97 + (n - 26)
  else if n < 62 then 48 + (n - 52)
  else if n = 62 then 43
  else 47

/-- Inverse alphabet lookup: the sextet of a character code, `none` for
characters outside the standard base64 alphabet. -/
def b64val (c : Nat) : Option Nat :=
  if 65 ≤ c ∧ c ≤ 90 then some (c - 65)
  else if 97 ≤ c ∧ c ≤ 122 then some (c - 97 + 26)
  else if 48 ≤ c ∧ c ≤ 57 then some (c - 48 + 52)
  else if c = 43 then some 62
  else if c = 47 then some 63
  else none

/-- `base64.b64encode` (external stdlib): three octets per four characters,
`'='` (61) padding. -/
def b64encode : List Nat → List Nat
  | b1 :: b2 :: b3 :: rest =>
    b64char (b1 / 4) :: b64char (b1 % 4 * 16 + b2 / 16) ::
      b64char (b2 % 16 * 4 + b3 / 64) :: b64char (b3 % 64) :: b64encode rest
  | [b1, b2] =>
    [b64char (b1 / 4), b64char (b1 % 4 * 16 + b2 / 16), b64char (b2 % 16 * 4), 61]
  | [b1] => [b64char (b1 / 4), b64char (b1 % 4 * 16), 61, 61]
  | [] => []

/-- Decoding of a base64 character stream by groups of four, with `'='`
padding allowed only in the final group; `none` models `binascii.Error`. -/
def decodeQuads : List Nat → Option (List Nat)
  | [] => some []
  | a :: b :: c :: d :: rest =>
    match b64val a, b64val b with
    | some va, some vb =>
      if c = 61 ∧ d = 61 ∧ rest = [] then
        some [va * 4 + vb / 16]
      else if d = 61 ∧ rest = [] then
        match b64val c with
        | some vc => some [va * 4 + vb / 16, vb % 16 * 16 + vc / 4]
        | none => none
      else
        match b64val c, b64val d with
        | some vc, some vd =>
          match decodeQuads rest with
          | some r =>
            some ((va * 4 + vb / 16) :: (vb % 16 * 16 + vc / 4) ::
              (vc % 4 * 64 + vd) :: r)
          | none => none
        | _, _ => none
    | _, _ => none
  | _ => none

/-- `base64.b64decode` with `validate=False` (external stdlib) first discards
every character that is neither in the alphabet nor padding. -/
def b64Discard (s : List Nat) : List Nat :=
  s.filter (fun c => (b64val c).isSome || c == 61)

/-- `base64.b64decode` (external stdlib, non-validating mode). -/
def b64decode (s : List Nat) : Option (List Nat) :=
  decodeQuads (b64Discard s)

/-- Index of the first occurrence of `pat` in `s` (`bytes.find`),
`none` for Python's `-1`. -/
def findSub : List Nat → List Nat → Option Nat
  | s, pat =>
    if pat.isPrefixOf s then some 0
    else
      match s with
      | [] => none
      | _ :: t => (findSub t pat).map (· + 1)

/-- Python index clamping for slice bounds and search bounds: a negative
index counts from the end, and indices are clamped to `[0, n]`. -/
def pyClamp (n : Nat) (i : Int) : Nat :=
  if i < 0 then (n + i).toNat else min i.toNat n

/-- `s.find(pat)` with Python's `-1` convention. -/
def pyFind (s pat : List Nat) : Int :=
  match findSub s pat with
  | some i => (i : Int)
  | none => -1

/-- `s.find(pat, start)` with Python's `-1` convention. -/
def pyFindFrom (s pat : List Nat) (start : Int) : Int :=
  match findSub (s.drop (pyClamp s.length start)) pat with
  | some i => ((pyClamp s.length start + i : Nat) : Int)
  | none => -1

/-- Downward scan for the highest occurrence index: `rfindAux s pat en i`
is the largest `j ≤ i` with `j + pat.length ≤ en` at which `pat` occurs. -/
def rfindAux (s pat : List Nat) (en : Nat) : Nat → Option Nat
  | 0 => if pat.length ≤ en ∧ pat.isPrefixOf s then some 0 else none
  | i + 1 =>
    if i + 1 + pat.length ≤ en ∧ pat.isPrefixOf (s.drop (i + 1)) then some (i + 1)
    else rfindAux s pat en i

/-- `s.rfind(pat, 0, en)` with Python's `-1` convention (the code only ever
calls `rfind` with start `0`). -/
def pyRfind (s pat : List Nat) (en : Int) : Int :=
  match rfindAux s pat (pyClamp s.length en) s.length with
  | some i => (i : Int)
  | none => -1

/-- Python slice `s[a:b]`. -/
def pySlice (s : List Nat) (a b : Int) : List Nat :=
  (s.take (pyClamp s.length b)).drop (pyClamp s.length a)

/-- `"-----BEGIN "` -/
def hdrBegin : List Nat := [45, 45, 45, 45, 45, 66, 69, 71, 73, 78, 32]

/-- `"-----\n"` -/
def dashNL : List Nat := [45, 45, 45, 45, 45, 10]

/-- `"\n-----END "` -/
def ftrEnd : List Nat := [10, 45, 45, 45, 45, 45, 69, 78, 68, 32]

/-- `"-----BEGIN"` -/
def patBEGIN : List Nat := [45, 45, 45, 45, 45, 66, 69, 71, 73, 78]

/-- `"-----END"` -/
def patEND : List Nat := [45, 45, 45, 45, 45, 69, 78, 68]

/-- `"-----"` -/
def patDash5 : List Nat := [45, 45, 45, 45, 45]

/-- `[base64_string[i:i+64] for i in range(0, len(base64_string), 64)]`
(cert.py:105); the fuel `l.length` realises the loop exactly since every
iteration consumes at least one character. -/
def chunks64Aux : Nat → List Nat → List (List Nat)
  | 0, _ => []
  | n + 1, l => if l = [] then [] else l.take 64 :: chunks64Aux n (l.drop 64)

/-- The 64-character line chunks of a base64 string. -/
def chunks64 (l : List Nat) : List (List Nat) := chunks64Aux l.length l

/-- `'\n'.join(chunks)` (cert.py:106). -/
def joinNL : List (List Nat) → List Nat
  | [] => []
  | [x] => x
  | x :: xs => x ++ 10 :: joinNL xs

/-- `der2pem` (cert.py:100-108): base64, wrapped at 64 characters, framed by
`BEGIN`/`END` markers carrying label `lbl`, with a trailing newline. -/
def der2pem (der lbl : List Nat) : List Nat :=
  hdrBegin ++ lbl ++ dashNL ++ joinNL (chunks64 (b64encode der)) ++
    ftrEnd ++ lbl ++ dashNL

/-- `pem2der` (cert.py:112-123): strip `'\r'` (13), locate the first
`"-----\n"`, reject a second `"-----BEGIN"`, slice up to the second-to-last
`"-----"` and base64-decode (the source's `base64_string.replace(b"\n", b"")`
discards its result, so newlines survive into `b64decode`, which drops them).
`none` models the raised exceptions. -/
def pem2der (pem : List Nat) : Option (List Nat) :=
  let s := pem.filter (fun c => decide (c ≠ 13))
  let firstIdx : Int := pyFind s dashNL + 6
  if pyFindFrom s patBEGIN firstIdx ≠ -1 then none
  else
    b64decode (pySlice s firstIdx
      (pyRfind s patDash5 (pyRfind s patDash5 (s.length : Int))))

/-- `split_pem` (cert.py:126-144) with fuel `s.length` (every iteration
consumes at least one character); `none` models the missing-`END` exception. -/
def split_pemAux : Nat → List Nat → Option (List (List Nat))
  | 0, _ => some []
  | fuel + 1, s =>
    if s = [] then some []
    else
      match findSub s patBEGIN with
      | none => some []
      | some i =>
        match findSub s patEND with
        | none => none
        | some j =>
          let e :=
            match findSub (s.drop j) [10] with
            | some k => j + k + 1
            | none => s.length
          match split_pemAux fuel (s.drop e) with
          | none => none
          | some r => some ((s.take e).drop i :: r)

/-- `split_pem` (cert.py:126-144). -/
def split_pem (s : List Nat) : Option (List (List Nat)) :=
  split_pemAux s.length s

/-- The `frmt` attribute of an imported PKI object. -/
inductive Frmt where
  | pem | der
deriving DecidableEq

/-- What the filesystem reports for a path: `none` when
`os.path.isfile` is false; otherwise the size `os.path.getsize` returns and
the bytes a successful read yields. -/
structure FileInfo where
  size : Nat
  content : List Nat

/-- The encoding-detection and decoding stage of `_PKIObjMaker.__call__`
(cert.py:179-189): data containing `"-----BEGIN"` is split into PEM objects,
each is DER-decoded and the results concatenated; otherwise the bytes are
taken as DER.  `none` models `raise Exception(error_msg)`. -/
def importRaw (raw : List Nat) : Option (Frmt × List Nat) :=
  if (findSub raw patBEGIN).isSome then
    match split_pem raw with
    | none => none
    | some pieces =>
      match pieces.mapM pem2der with
      | none => none
      | some ders => some (.pem, ders.flatten)
  else some (.der, raw)

/-- `_PKIObjMaker.__call__` (cert.py:153-192): when the input contains no NUL
byte and names an existing file, the file's size is compared to
`objMaxSize` before its contents are read; otherwise the input bytes
themselves go straight to `importRaw`. -/
def pkiObjMake (fs : List Nat → Option FileInfo) (objPath : List Nat)
    (objMaxSize : Nat) : Option (Frmt × List Nat) :=
  if objPath.contains 0 then importRaw objPath
  else
    match fs objPath with
    | some fi => if objMaxSize < fi.size then none else importRaw fi.content
    | none => importRaw objPath

/-- The label `"-----BEGIN"` itself — a label on which the PEM round-trip
breaks down. -/
def lblBad : List Nat := [45, 45, 45, 45, 45, 66, 69, 71, 73, 78]

/-- `der2pem`'s output with label `L` and body `B`, in right-associated form
(used to reason about `pem2der`): `"-----BEGIN " ++ L ++ "-----\n" ++ B ++
"\n-----END " ++ L ++ "-----\n"`. -/
def pemText (L B : List Nat) : List Nat :=
  hdrBegin ++ (L ++ (dashNL ++ (B ++ (ftrEnd ++ (L ++ dashNL)))))

/-! ### Concrete instances used by witnesses and counterexamples -/

/-- Concrete verification oracle: key `k` verifies certificate `c` exactly
when `c` was signed with `k`. -/
def Vc : Nat → Cert → Bool := fun k c => k == c.signerKeyId

/-- A self-signed root: subject = issuer, signed with its own key `10`. -/
def rootC : Cert := ⟨1, 1, 10, 10, 1000, 0, none, 0⟩

/-- A leaf issued by `rootC` (issuer hash `1`, signed with key `10`). -/
def childC : Cert := ⟨1, 2, 20, 10, 1000, 1, none, 0⟩

/-- Like `childC` but already expired at reference time `0`. -/
def leafExpC : Cert := ⟨1, 2, 20, 10, -100, 1, none, 0⟩

/-- Concrete certificate used by witnesses: self-signed, key handle `0`,
expires at time `100`. -/
def certW : Cert := ⟨0, 0, 0, 0, 100, 0, none, 0⟩

/-! ### Claims C3, C4, C5, C6, C7, C9 -/

/-- Claim C4: for every certificate, `isSelfSigned` is true iff the
certificate's issuer hash equals its subject hash and verifying the
certificate's own signature with its own public key succeeds. -/
theorem isSelfSigned_iff (V : Nat → Cert → Bool) (c : Cert) :
    isSelfSigned V c = true ↔
      (c.issuer_hash = c.subject_hash ∧ V c.pubKeyId c = true) := by
  by_cases h : c.issuer_hash = c.subject_hash
  · simp [isSelfSigned, isIssuerCert, h]
  · simp [isSelfSigned, h]

/-- Claim C5: `remainingDays` computes `(notAfter − reference)/86400` in days,
is `0` when the reference equals `notAfter`, is negative once the reference is
past `notAfter`, and a reference string that parses under neither accepted
format falls back to the current local time (the `now=None` behaviour). -/
theorem remainingDays_spec (p1 p2 : List Nat → Option Int) (c : Cert)
    (localNow r d : Int) (s : List Nat)
    (h1 : p1 s = none) (h2 : p2 s = none) (hd : 0 < d) :
    remainingDays p1 p2 localNow c (.tup r)
        = ((c.notAfter - r : Int) : ℚ) / 86400 ∧
      remainingDays p1 p2 localNow c (.tup c.notAfter) = 0 ∧
      remainingDays p1 p2 localNow c (.tup (c.notAfter + d)) < 0 ∧
      remainingDays p1 p2 localNow c (.tstr s)
        = remainingDays p1 p2 localNow c .tnone := by
  refine ⟨?_, ?_, ?_, ?_⟩
  · simp [remainingDays, remainingDaysAt, Rat.mkRat_eq_div]
  · simp [remainingDays, remainingDaysAt]
  · have hnum : c.notAfter - (c.notAfter + d) = -d := by ring
    simp only [remainingDays, remainingDaysAt, hnum, Rat.mkRat_eq_div]
    apply div_neg_of_neg_of_pos
    · exact_mod_cast Int.neg_neg_of_pos hd
    · norm_num
  · cases hc : s.contains 47 <;> simp [remainingDays, hc, h1, h2]

/-- Witness for C5 at concrete inputs. -/
theorem remainingDays_spec_witness :
    remainingDays (fun _ => none) (fun _ => none) 0 certW (.tup 100) = 0 ∧
      remainingDays (fun _ => none) (fun _ => none) 0 certW (.tup 101) < 0 ∧
      remainingDays (fun _ => none) (fun _ => none) 0 certW (.tstr [65])
        = remainingDays (fun _ => none) (fun _ => none) 0 certW .tnone := by
  obtain ⟨-, h2, h3, h4⟩ :=
    remainingDays_spec (fun _ => none) (fun _ => none) certW 0 0 1 [65]
      rfl rfl (by decide)
  exact ⟨h2, h3, h4⟩

/-- Claim C6: `isRevoked` is decided by the first CRL in list order that
matches the certificate — by authority-key-identifier when both carry one,
else by issuer equality — and returns exactly the serial-membership test of
that CRL (regardless of recency); with no matching CRL it returns false. -/
theorem isRevoked_first_match (c : Cert) (crls : List CRL) :
    isRevoked c crls =
      match crls.find? (crlMatches c) with
      | some r => (r.revoked_cert_serials.map Prod.fst).contains c.serial
      | none => false := by
  induction crls with
  | nil => rfl
  | cons r rest ih =>
    by_cases hA : c.authorityKeyID.isSome ∧ r.authorityKeyID.isSome ∧
        c.authorityKeyID = r.authorityKeyID
    · have hm : crlMatches c r = true := by simp [crlMatches, hA]
      simp [isRevoked, hA, hm]
    · by_cases hI : c.issuer = r.issuer
      · have hm : crlMatches c r = true := by simp [crlMatches, hI]
        simp [isRevoked, hA, hI, hm]
      · have hm : crlMatches c r = false := by simp [crlMatches, hA, hI]
        simp [isRevoked, hA, hI, hm, ih]

/-- Claim C3: private-key resolution is the first success over the fixed
candidate order (OpenSSL-wrapped RSA, OpenSSL-wrapped ECDSA, bare RSA, bare
ECDSA, bare EdDSA); in particular bytes decoding under two candidates get the
earlier kind, and exhaustion yields the failure result `none`. -/
theorem privKeyResolve_first_success (d1 d2 d3 d4 d5 : List Nat → Bool)
    (der : List Nat) :
    privKeyResolve d1 d2 d3 d4 d5 der =
      ((privTrialOrder d1 d2 d3 d4 d5).find? (fun p => p.1 der)).map Prod.snd := by
  cases h1 : d1 der <;> cases h2 : d2 der <;> cases h3 : d3 der <;>
    cases h4 : d4 der <;> cases h5 : d5 der <;>
      simp [privKeyResolve, privTrialOrder, h1, h2, h3, h4, h5]

/-- Claim C7: public-key resolution first attempts the
SubjectPublicKeyInfo-wrapped decode (distinguishing the RSA/ECDSA/EdDSA
sub-forms), then falls back to a bare RSA structure; input that is neither
(such as a bare ECDSA or EdDSA key, for which the wrapped parse fails and the
bare RSA parse fails) yields the import failure `none`. -/
theorem pubKeyResolve_spec (spki : List Nat → Option SpkiSub)
    (bareRSA : List Nat → Bool) (der : List Nat) :
    (pubKeyResolve spki bareRSA der = some .ecdsa ↔ spki der = some .subEcdsa) ∧
    (pubKeyResolve spki bareRSA der = some .eddsa ↔ spki der = some .subEddsa) ∧
    (pubKeyResolve spki bareRSA der = some .rsa ↔
      (spki der = some .subRsa ∨
        ((spki der = none ∨ spki der = some .subOther) ∧ bareRSA der = true))) ∧
    (pubKeyResolve spki bareRSA der = none ↔
      ((spki der = none ∨ spki der = some .subOther) ∧ bareRSA der = false)) := by
  cases h : spki der with
  | none => cases hb : bareRSA der <;> simp [pubKeyResolve, h, hb]
  | some sub => cases sub <;> cases hb : bareRSA der <;> simp [pubKeyResolve, h, hb]

/-- Claim C9 (code bug): the `PrivKeyEdDSA` class builds its derived public
key as `PubKeyECDSA(cryptography_obj=self.key.public_key())` (cert.py:700 and
707), so an imported or generated EdDSA private key carries a public-key
object tagged ECDSA around an EdDSA handle — the `(variant, handle)`
consistency the claim states is violated. -/
theorem privKeyEdDSA_pubkey_mismatch :
    privKeyEdDSA_build.keyAlg = KeyVariant.eddsa ∧
      privKeyEdDSA_build.pubkey.tag = KeyVariant.ecdsa ∧
      privKeyEdDSA_build.pubkey.tag ≠ privKeyEdDSA_build.pubkey.handleAlg := by
  decide

/-! ### Chain construction (C2) and chain verification (C1) -/

theorem extractFirst_some (p : Cert → Bool) :
    ∀ (l : List Cert) (c : Cert) (rest : List Cert),
      extractFirst p l = some (c, rest) → c ∈ l ∧ p c = true := by
  intro l
  induction l with
  | nil => intro c rest h; simp [extractFirst] at h
  | cons a t ih =>
    intro c rest h
    by_cases hp : p a
    · simp [extractFirst, hp] at h
      obtain ⟨h1, -⟩ := h
      subst h1
      exact ⟨List.mem_cons_self a t, hp⟩
    · simp only [extractFirst, hp, Bool.false_eq_true, if_false] at h
      cases he : extractFirst p t with
      | none => rw [he] at h; exact absurd h (by simp)
      | some pr =>
        rw [he] at h
        obtain ⟨x, r⟩ := pr
        simp only [Option.some.injEq, Prod.mk.injEq] at h
        obtain ⟨h1, -⟩ := h
        subst h1
        obtain ⟨hmem, hpx⟩ := ih x r he
        exact ⟨List.mem_cons_of_mem a hmem, hpx⟩

theorem growChainAux_head_stable (V : Nat → Cert → Bool) :
    ∀ (n : Nat) (chain : List Cert) (tail : Cert) (pool : List Cert),
      chain ≠ [] → (growChainAux V n chain tail pool).head? = chain.head? := by
  intro n
  induction n with
  | zero => intro chain tail pool _; rfl
  | succ m ih =>
    intro chain tail pool h
    simp only [growChainAux]
    cases he : extractFirst (fun c => isIssuerCert V c tail) pool with
    | none => rfl
    | some pr =>
      obtain ⟨c, rest⟩ := pr
      rw [ih (chain ++ [c]) c rest (by simp)]
      cases chain with
      | nil => exact absurd rfl h
      | cons x xs => simp

theorem growChainAux_linked (V : Nat → Cert → Bool) :
    ∀ (n : Nat) (pool chain : List Cert) (tail : Cert),
      List.Chain' (fun a b => isIssuerCert V b a = true) chain →
      chain.getLast? = some tail →
      List.Chain' (fun a b => isIssuerCert V b a = true)
        (growChainAux V n chain tail pool) := by
  intro n
  induction n with
  | zero => intro pool chain tail hc _; exact hc
  | succ m ih =>
    intro pool chain tail hc hlast
    simp only [growChainAux]
    cases he : extractFirst (fun c => isIssuerCert V c tail) pool with
    | none => exact hc
    | some pr =>
      obtain ⟨c, rest⟩ := pr
      apply ih rest (chain ++ [c]) c
      · have hpc : isIssuerCert V c tail = true :=
          (extractFirst_some _ pool c rest he).2
        refine List.Chain'.append hc (List.chain'_singleton c) ?_
        intro x hx y hy
        rw [hlast] at hx
        simp only [Option.mem_def, Option.some.injEq] at hx
        simp only [List.head?_cons, Option.mem_def, Option.some.injEq] at hy
        subst hx; subst hy
        exact hpc
      · simp

theorem mkChain_some_head (V : Nat → Cert → Bool) (pool : List Cert) (c0 : Cert) :
    (mkChain V pool (some c0)).head? = some c0 := by
  simp only [mkChain]
  rw [growChainAux_head_stable V pool.length [c0] c0 pool (by simp)]
  rfl

/-- Claim C2 (amended): every chain produced by construction is linked in
issuance order — for every adjacent pair, `chain[i]` is the issuer of
`chain[i+1]` (hash-matched issuer/subject plus a verified signature, i.e.
`isIssuerCert V chain[i+1] chain[i]`) — and the first element is the
caller-supplied start when given, else a self-signed member of the pool. -/
theorem chain_build_invariant (V : Nat → Cert → Bool) (pool : List Cert)
    (start : Option Cert) :
    List.Chain' (fun a b => isIssuerCert V b a = true) (mkChain V pool start) ∧
      (∀ c0, start = some c0 → (mkChain V pool start).head? = some c0) ∧
      (start = none →
        mkChain V pool start = [] ∨
        ∃ r, (mkChain V pool start).head? = some r ∧ r ∈ pool ∧
          isSelfSigned V r = true) := by
  cases start with
  | some c0 =>
    refine ⟨?_, ?_, ?_⟩
    · exact growChainAux_linked V pool.length pool [c0] c0
        (List.chain'_singleton c0) rfl
    · intro c0' h
      cases h
      exact mkChain_some_head V pool c0
    · intro h; exact absurd h (by simp)
  | none =>
    cases he : extractFirst (isSelfSigned V) pool with
    | none =>
      refine ⟨?_, ?_, ?_⟩
      · simp [mkChain, he]
      · intro c0 h; exact absurd h (by simp)
      · intro _; left; simp [mkChain, he]
    | some pr =>
      obtain ⟨r, rest⟩ := pr
      obtain ⟨hmem, hself⟩ := extractFirst_some _ pool r rest he
      refine ⟨?_, ?_, ?_⟩
      · simp only [mkChain, he]
        exact growChainAux_linked V rest.length rest [r] r
          (List.chain'_singleton r) rfl
      · intro c0 h; exact absurd h (by simp)
      · intro _
        right
        refine ⟨r, ?_, hmem, hself⟩
        simp only [mkChain, he]
        rw [growChainAux_head_stable V rest.length [r] r rest (by simp)]
        rfl

/-- Counterexample to claim C2 as stated: the built chain `[rootC, childC]`
does not satisfy "`chain[i+1]` is the issuer of `chain[i]`" — the issuance
relation points the other way (the root issues the child). -/
theorem chain_build_claim_counterexample :
    mkChain Vc [rootC, childC] none = [rootC, childC] ∧
      ¬ List.Chain' (fun a b => isIssuerCert Vc a b = true)
          (mkChain Vc [rootC, childC] none) := by
  have h : mkChain Vc [rootC, childC] none = [rootC, childC] := by decide
  refine ⟨h, ?_⟩
  intro hch
  rw [h] at hch
  have := (List.chain'_cons.mp hch).1
  exact absurd this (by decide)

/-- Witness for the amended C2 at concrete inputs. -/
theorem chain_build_invariant_witness :
    (mkChain Vc [rootC, childC] none = [] ∨
      ∃ r, (mkChain Vc [rootC, childC] none).head? = some r ∧
        r ∈ [rootC, childC] ∧ isSelfSigned Vc r = true) ∧
      (mkChain Vc [childC] (some rootC)).head? = some rootC :=
  ⟨(chain_build_invariant Vc [rootC, childC] none).2.2 rfl,
   (chain_build_invariant Vc [childC] (some rootC)).2.1 rootC rfl⟩

theorem mkChain_some_ne_nil (V : Nat → Cert → Bool) (pool : List Cert)
    (c0 : Cert) : mkChain V pool (some c0) ≠ [] := by
  intro h
  have := mkChain_some_head V pool c0
  rw [h] at this
  exact absurd this (by simp)

/-- Claim C1 (amended): when `verifyChain` returns a chain, that chain was
built from some anchor over `selfC ++ untrusted`, has length greater than 1,
contains a certificate of the chain under test among its non-anchor elements,
and the walk from anchor to leaf meets no expired member strictly before the
final element — i.e. the first member with a negative `remainingDays`, if any,
is the chain's last element (an expired leaf is still accepted).  `none` is
the normal "no trust path" result. -/
theorem verifyChain_sound (V : Nat → Cert → Bool) (selfC : List Cert)
    (loc : Int) :
    ∀ (anchors untrusted ch : List Cert),
      verifyChain V selfC loc anchors untrusted = some ch →
      1 < ch.length ∧
      (∃ c ∈ selfC, c ∈ ch.drop 1) ∧
      (ch.find? (fun c => decide (remainingDaysAt c loc < 0)) = none ∨
        ch.find? (fun c => decide (remainingDaysAt c loc < 0)) = ch.getLast?) ∧
      ∃ a ∈ anchors, ch = mkChain V (selfC ++ untrusted) (some a) := by
  intro anchors
  induction anchors with
  | nil => intro untrusted ch h; simp [verifyChain] at h
  | cons a rest ih =>
    intro untrusted ch h
    simp only [verifyChain] at h
    set K := mkChain V (selfC ++ untrusted) (some a) with hK
    by_cases h1 : K.length = 1
    · rw [if_pos h1] at h
      obtain ⟨h2, h3, h4, a', ha', hch⟩ := ih untrusted ch h
      exact ⟨h2, h3, h4, a', List.mem_cons_of_mem a ha', hch⟩
    · rw [if_neg h1] at h
      by_cases h2 : selfC.any (fun c => decide (c ∈ K.drop 1)) = true
      · rw [if_pos h2] at h
        by_cases h3 :
            (K.find? (fun c => decide (remainingDaysAt c loc < 0))).getD
              ((K.getLast?).getD a) = (K.getLast?).getD a
        · rw [if_pos h3] at h
          obtain rfl : K = ch := by injection h
          have hne : K ≠ [] := by
            rw [hK]; exact mkChain_some_ne_nil V (selfC ++ untrusted) a
          have hlen1 : 0 < K.length := List.length_pos.mpr hne
          obtain ⟨l, hl⟩ : ∃ l, K.getLast? = some l := by
            cases hx : K.getLast? with
            | none => exact absurd (List.getLast?_eq_none_iff.mp hx) hne
            | some l => exact ⟨l, rfl⟩
          refine ⟨by omega, ?_, ?_, a, List.mem_cons_self a rest, hK⟩
          · obtain ⟨c, hc1, hc2⟩ := List.any_eq_true.mp h2
            exact ⟨c, hc1, of_decide_eq_true hc2⟩
          · rw [hl] at h3
            simp only [Option.getD_some] at h3
            cases hf : K.find? (fun c => decide (remainingDaysAt c loc < 0)) with
            | none => exact Or.inl rfl
            | some cexp =>
              rw [hf] at h3
              simp only [Option.getD_some] at h3
              rw [hl, h3]
              exact Or.inr rfl
        · rw [if_neg h3] at h
          obtain ⟨g2, g3, g4, a', ha', hch⟩ := ih untrusted ch h
          exact ⟨g2, g3, g4, a', List.mem_cons_of_mem a ha', hch⟩
      · rw [if_neg h2] at h
        obtain ⟨g2, g3, g4, a', ha', hch⟩ := ih untrusted ch h
        exact ⟨g2, g3, g4, a', List.mem_cons_of_mem a ha', hch⟩

/-- Counterexample to claim C1 as stated: `verifyChain` returns the chain
`[rootC, leafExpC]` even though its final member is expired
(`remainingDays < 0`), because the date walk's completion test
(`c is chain[-1]`, cert.py:1125) also matches a break at the last element. -/
theorem verifyChain_claim_counterexample :
    verifyChain Vc [leafExpC] 0 [rootC] [] = some [rootC, leafExpC] ∧
      remainingDaysAt leafExpC 0 < 0 := by
  decide

/-- Witness for the amended C1 at concrete inputs. -/
theorem verifyChain_sound_witness :
    1 < [rootC, childC].length ∧
      (∃ c ∈ [childC], c ∈ [rootC, childC].drop 1) ∧
      ([rootC, childC].find? (fun c => decide (remainingDaysAt c 0 < 0)) = none ∨
        [rootC, childC].find? (fun c => decide (remainingDaysAt c 0 < 0)) =
          [rootC, childC].getLast?) ∧
      ∃ a ∈ [rootC], [rootC, childC] = mkChain Vc ([childC] ++ []) (some a) :=
  verifyChain_sound Vc [childC] 0 [rootC] [] [rootC, childC] (by decide)

/-! ### Claim C10: size limit only for filesystem paths -/

/-- Claim C10: the maximum-size bound is enforced only when the import input
names an existing file (the reported size is compared to the bound before the
contents are used); literal-bytes input — whether because no such file exists
or because it contains a NUL byte — bypasses the size check entirely and goes
straight to encoding detection and decoding. -/
theorem pkiObjMake_size_policy (fs : List Nat → Option FileInfo)
    (b : List Nat) (m : Nat) :
    (fs b = none → pkiObjMake fs b m = importRaw b) ∧
      (b.contains 0 = true → pkiObjMake fs b m = importRaw b) ∧
      (∀ fi, fs b = some fi → b.contains 0 = false → m < fi.size →
        pkiObjMake fs b m = none) := by
  refine ⟨?_, ?_, ?_⟩
  · intro h
    unfold pkiObjMake
    by_cases hc : b.contains 0
    · rw [if_pos hc]
    · rw [if_neg hc]
      simp only [h]
  · intro h
    unfold pkiObjMake
    rw [if_pos h]
  · intro fi h hc hsz
    unfold pkiObjMake
    rw [if_neg (by rw [hc]; exact Bool.false_ne_true)]
    simp only [h]
    rw [if_pos hsz]

/-- Witness for C10 at concrete inputs: with no file behind the bytes the
result is `importRaw` of the bytes regardless of the bound, and an oversized
file (51 KiB against the 50 KiB key bound) is rejected. -/
theorem pkiObjMake_size_policy_witness :
    pkiObjMake (fun _ => none) [1, 2, 3] 0 = importRaw [1, 2, 3] ∧
      pkiObjMake (fun _ => some ⟨52224, [1]⟩) [1, 2, 3] 51200 = none :=
  ⟨(pkiObjMake_size_policy (fun _ => none) [1, 2, 3] 0).1 rfl,
   (pkiObjMake_size_policy (fun _ => some ⟨52224, [1]⟩) [1, 2, 3] 51200).2.2
     ⟨52224, [1]⟩ rfl rfl (by decide)⟩

/-! ### Base64 facts -/

theorem b64val_b64char {n : Nat} (h : n < 64) : b64val (b64char n) = some n := by
  unfold b64char b64val
  split_ifs <;> simp_all <;> omega

theorem b64char_alpha (n : Nat) :
    (b64val (b64char n)).isSome = true ∧ b64char n ≠ 61 ∧ b64char n ≠ 45 ∧
      b64char n ≠ 10 ∧ b64char n ≠ 13 := by
  unfold b64char b64val
  split_ifs <;> simp_all <;> omega

theorem b64encode_mem :
    ∀ (x : List Nat), ∀ c ∈ b64encode x, c = 61 ∨ (b64val c).isSome = true := by
  intro x
  induction x using b64encode.induct with
  | case1 b1 b2 b3 rest ih =>
    intro c hc
    simp only [b64encode, List.mem_cons] at hc
    rcases hc with rfl | rfl | rfl | rfl | hc
    · exact Or.inr (b64char_alpha _).1
    · exact Or.inr (b64char_alpha _).1
    · exact Or.inr (b64char_alpha _).1
    · exact Or.inr (b64char_alpha _).1
    · exact ih c hc
  | case2 b1 b2 =>
    intro c hc
    simp only [b64encode, List.mem_cons, List.not_mem_nil, or_false] at hc
    rcases hc with rfl | rfl | rfl | rfl
    · exact Or.inr (b64char_alpha _).1
    · exact Or.inr (b64char_alpha _).1
    · exact Or.inr (b64char_alpha _).1
    · exact Or.inl rfl
  | case3 b1 =>
    intro c hc
    simp only [b64encode, List.mem_cons, List.not_mem_nil, or_false] at hc
    rcases hc with rfl | rfl | rfl | rfl
    · exact Or.inr (b64char_alpha _).1
    · exact Or.inr (b64char_alpha _).1
    · exact Or.inl rfl
    · exact Or.inl rfl
  | case4 =>
    intro c hc
    simp [b64encode] at hc

theorem decodeQuads_b64encode :
    ∀ (x : List Nat), (∀ b ∈ x, b < 256) → decodeQuads (b64encode x) = some x := by
  intro x
  induction x using b64encode.induct with
  | case1 b1 b2 b3 rest ih =>
    intro hx
    have h1 : b1 < 256 := hx b1 (by simp)
    have h2 : b2 < 256 := hx b2 (by simp)
    have h3 : b3 < 256 := hx b3 (by simp)
    have e1 : b64val (b64char (b1 / 4)) = some (b1 / 4) := b64val_b64char (by omega)
    have e2 : b64val (b64char (b1 % 4 * 16 + b2 / 16))
        = some (b1 % 4 * 16 + b2 / 16) := b64val_b64char (by omega)
    have e3 : b64val (b64char (b2 % 16 * 4 + b3 / 64))
        = some (b2 % 16 * 4 + b3 / 64) := b64val_b64char (by omega)
    have e4 : b64val (b64char (b3 % 64)) = some (b3 % 64) :=
      b64val_b64char (by omega)
    have n3 : b64char (b2 % 16 * 4 + b3 / 64) ≠ 61 := (b64char_alpha _).2.1
    have n4 : b64char (b3 % 64) ≠ 61 := (b64char_alpha _).2.1
    have ihh : decodeQuads (b64encode rest) = some rest :=
      ih (fun b hb => hx b (by simp [hb]))
    simp only [b64encode, decodeQuads, e1, e2, e3, e4, ihh]
    rw [if_neg (by tauto), if_neg (by tauto)]
    simp only [Option.some.injEq, List.cons.injEq, and_true, true_and]
    omega
  | case2 b1 b2 =>
    intro hx
    have h1 : b1 < 256 := hx b1 (by simp)
    have h2 : b2 < 256 := hx b2 (by simp)
    have e1 : b64val (b64char (b1 / 4)) = some (b1 / 4) := b64val_b64char (by omega)
    have e2 : b64val (b64char (b1 % 4 * 16 + b2 / 16))
        = some (b1 % 4 * 16 + b2 / 16) := b64val_b64char (by omega)
    have e3 : b64val (b64char (b2 % 16 * 4)) = some (b2 % 16 * 4) :=
      b64val_b64char (by omega)
    have n3 : b64char (b2 % 16 * 4) ≠ 61 := (b64char_alpha _).2.1
    simp only [b64encode, decodeQuads, e1, e2, e3]
    rw [if_neg (by tauto), if_pos (by tauto)]
    simp only [Option.some.injEq, List.cons.injEq, and_true, true_and]
    omega
  | case3 b1 =>
    intro hx
    have h1 : b1 < 256 := hx b1 (by simp)
    have e1 : b64val (b64char (b1 / 4)) = some (b1 / 4) := b64val_b64char (by omega)
    have e2 : b64val (b64char (b1 % 4 * 16)) = some (b1 % 4 * 16) :=
      b64val_b64char (by omega)
    simp only [b64encode, decodeQuads, e1, e2]
    rw [if_pos (by tauto)]
    simp only [Option.some.injEq, List.cons.injEq, and_true]
    omega
  | case4 => intro _; rfl

/-! ### Occurrence and search facts -/

theorem prefix_getElem {s pat : List Nat} {i : Nat} (h : pat <+: s.drop i)
    {k : Nat} (hk : k < pat.length) : s[i + k]? = pat[k]? := by
  obtain ⟨t, ht⟩ := h
  have h1 : (s.drop i)[k]? = s[i + k]? := List.getElem?_drop s i k
  rw [← h1, ← ht, List.getElem?_append, if_pos hk]

theorem prefix_length_le {s pat : List Nat} {i : Nat} (h : pat <+: s.drop i) :
    pat.length ≤ s.length - i := by
  have := h.length_le
  rwa [List.length_drop] at this

theorem findSub_eq_some_of {pat : List Nat} :
    ∀ (s : List Nat) (i : Nat), pat <+: s.drop i →
      (∀ j, j < i → ¬ pat <+: s.drop j) → findSub s pat = some i := by
  intro s
  induction s with
  | nil =>
    intro i hocc hmin
    cases i with
    | zero =>
      simp only [findSub]
      rw [if_pos (List.isPrefixOf_iff_prefix.mpr (by simpa using hocc))]
    | succ j =>
      exact absurd (by simpa using hocc : pat <+: ([] : List Nat))
        (by simpa using hmin 0 (by omega))
  | cons a t ih =>
    intro i hocc hmin
    cases i with
    | zero =>
      simp only [findSub]
      rw [if_pos (List.isPrefixOf_iff_prefix.mpr (by simpa using hocc))]
    | succ j =>
      have h0 : ¬ pat.isPrefixOf (a :: t) = true := by
        intro hp
        exact hmin 0 (by omega) (by simpa using List.isPrefixOf_iff_prefix.mp hp)
      simp only [findSub]
      rw [if_neg h0]
      have hrec : findSub t pat = some j := by
        refine ih j (by simpa using hocc) ?_
        intro j' hj'
        have := hmin (j' + 1) (by omega)
        simpa using this
      rw [hrec]
      rfl

theorem findSub_eq_none_of {pat : List Nat} :
    ∀ (s : List Nat), (∀ j, ¬ pat <+: s.drop j) → findSub s pat = none := by
  intro s
  induction s with
  | nil =>
    intro hmin
    simp only [findSub]
    rw [if_neg (fun hp =>
      hmin 0 (by simpa using List.isPrefixOf_iff_prefix.mp hp))]
  | cons a t ih =>
    intro hmin
    simp only [findSub]
    rw [if_neg (fun hp =>
      hmin 0 (by simpa using List.isPrefixOf_iff_prefix.mp hp))]
    have hrec : findSub t pat = none := by
      refine ih ?_
      intro j
      have := hmin (j + 1)
      simpa using this
    rw [hrec]
    rfl

theorem rfindAux_eq_some {s pat : List Nat} {en : Nat} {i : Nat}
    (hbound : i + pat.length ≤ en) (hocc : pat <+: s.drop i) :
    ∀ (i0 : Nat), i ≤ i0 →
      (∀ j, i < j → j ≤ i0 → ¬ (j + pat.length ≤ en ∧ pat <+: s.drop j)) →
      rfindAux s pat en i0 = some i := by
  intro i0
  induction i0 with
  | zero =>
    intro hle hmax
    obtain rfl : i = 0 := by omega
    simp only [rfindAux]
    rw [if_pos ⟨by omega,
      List.isPrefixOf_iff_prefix.mpr (by simpa using hocc)⟩]
  | succ m ih =>
    intro hle hmax
    by_cases he : i = m + 1
    · subst he
      simp only [rfindAux]
      rw [if_pos ⟨by omega, List.isPrefixOf_iff_prefix.mpr hocc⟩]
    · have hi : i ≤ m := by omega
      simp only [rfindAux]
      rw [if_neg (fun hcond =>
        hmax (m + 1) (by omega) (by omega)
          ⟨by omega, List.isPrefixOf_iff_prefix.mp hcond.2⟩)]
      exact ih hi (fun j hj1 hj2 => hmax j hj1 (by omega))

/-! ### Chunking and joining facts -/

theorem chunks64Aux_flatten : ∀ (n : Nat) (l : List Nat), l.length ≤ n →
    (chunks64Aux n l).flatten = l := by
  intro n
  induction n with
  | zero =>
    intro l hl
    obtain rfl : l = [] := List.length_eq_zero.mp (by omega)
    rfl
  | succ m ih =>
    intro l hl
    simp only [chunks64Aux]
    by_cases he : l = []
    · rw [if_pos he, he]; rfl
    · rw [if_neg he]
      simp only [List.flatten_cons]
      rw [ih (l.drop 64) (by rw [List.length_drop]; omega)]
      exact List.take_append_drop 64 l

theorem mem_chunks64Aux : ∀ (n : Nat) (l ch : List Nat), ch ∈ chunks64Aux n l →
    ∀ c ∈ ch, c ∈ l := by
  intro n
  induction n with
  | zero => intro l ch h; simp [chunks64Aux] at h
  | succ m ih =>
    intro l ch h c hc
    simp only [chunks64Aux] at h
    by_cases he : l = []
    · rw [if_pos he] at h; simp at h
    · rw [if_neg he] at h
      simp only [List.mem_cons] at h
      rcases h with rfl | h
      · exact List.take_subset 64 l hc
      · exact List.drop_subset 64 l (ih (l.drop 64) ch h c hc)

theorem mem_joinNL : ∀ (ls : List (List Nat)) (c : Nat), c ∈ joinNL ls →
    c = 10 ∨ ∃ l ∈ ls, c ∈ l := by
  intro ls
  induction ls using joinNL.induct with
  | case1 => intro c hc; simp [joinNL] at hc
  | case2 x =>
    intro c hc
    right
    exact ⟨x, by simp, by simpa [joinNL] using hc⟩
  | case3 x xs hne ih =>
    intro c hc
    cases xs with
    | nil => exact absurd rfl (fun h => hne h)
    | cons y ys =>
      simp only [joinNL, List.mem_append, List.mem_cons] at hc
      rcases hc with hc | hc | hc
      · exact Or.inr ⟨x, by simp, hc⟩
      · exact Or.inl hc
      · rcases ih c hc with h | ⟨l, hl, hcl⟩
        · exact Or.inl h
        · exact Or.inr ⟨l, List.mem_cons_of_mem x hl, hcl⟩

theorem filter_joinNL (p : Nat → Bool) (hp : p 10 = false) :
    ∀ (ls : List (List Nat)),
      (joinNL ls).filter p = (ls.map (fun l => l.filter p)).flatten := by
  intro ls
  induction ls using joinNL.induct with
  | case1 => rfl
  | case2 x => simp [joinNL]
  | case3 x xs hne ih =>
    cases xs with
    | nil => exact absurd rfl (fun h => hne h)
    | cons y ys =>
      simp only [joinNL, List.filter_append, List.map_cons, List.flatten_cons]
      rw [List.filter_cons_of_neg (by simp [hp]), ih]
      simp [List.flatten_cons]

theorem b64Discard_joinNL_chunks (E : List Nat)
    (hE : ∀ c ∈ E, c = 61 ∨ (b64val c).isSome = true) :
    b64Discard (joinNL (chunks64 E)) = E := by
  unfold b64Discard
  rw [filter_joinNL _ (by decide)]
  have hid : ∀ ch ∈ chunks64 E,
      ch.filter (fun c => (b64val c).isSome || c == 61) = ch := by
    intro ch hch
    rw [List.filter_eq_self]
    intro a ha
    rcases hE a (mem_chunks64Aux E.length E ch hch a ha) with h | h
    · subst h; simp
    · simp [h]
  rw [List.map_congr_left hid]
  rw [show (chunks64 E).map (fun l => l) = chunks64 E by simp]
  exact chunks64Aux_flatten E.length E le_rfl

theorem joinNL_chunks_chars (E : List Nat)
    (hE : ∀ c ∈ E, c = 61 ∨ (b64val c).isSome = true) :
    ∀ c ∈ joinNL (chunks64 E), c = 10 ∨ c = 61 ∨ (b64val c).isSome = true := by
  intro c hc
  rcases mem_joinNL _ c hc with h | ⟨l, hl, hcl⟩
  · exact Or.inl h
  · exact Or.inr (hE c (mem_chunks64Aux E.length E l hl c hcl))

theorem bchar_ne {c : Nat} (h : c = 10 ∨ c = 61 ∨ (b64val c).isSome = true) :
    c ≠ 45 ∧ c ≠ 13 := by
  rcases h with rfl | rfl | h
  · exact ⟨by decide, by decide⟩
  · exact ⟨by decide, by decide⟩
  · constructor
    · rintro rfl
      rw [show b64val 45 = none from by decide] at h
      simp at h
    · rintro rfl
      rw [show b64val 13 = none from by decide] at h
      simp at h

/-! ### Position analysis of the PEM text -/

theorem pemText_length (L B : List Nat) :
    (pemText L B).length = 33 + 2 * L.length + B.length := by
  simp [pemText, hdrBegin, dashNL, ftrEnd]
  omega

theorem pem_getElem_hdr (L B : List Nat) {j : Nat} (hj : j < 11) :
    (pemText L B)[j]? = hdrBegin[j]? := by
  simp only [pemText]
  rw [List.getElem?_append, if_pos (by rw [show hdrBegin.length = 11 from rfl]; omega)]

theorem pem_getElem_lbl (L B : List Nat) {j : Nat} (h1 : 11 ≤ j)
    (h2 : j < 11 + L.length) : (pemText L B)[j]? = L[j - 11]? := by
  simp only [pemText]
  rw [List.getElem?_append_right (by rw [show hdrBegin.length = 11 from rfl]; omega)]
  rw [show hdrBegin.length = 11 from rfl]
  rw [List.getElem?_append, if_pos (by omega)]

theorem pem_find_dashNL (L B : List Nat) (hL : ∀ c ∈ L, c ≠ 45) :
    findSub (pemText L B) dashNL = some (11 + L.length) := by
  apply findSub_eq_some_of
  · have hs : pemText L B
        = (hdrBegin ++ L) ++ (dashNL ++ (B ++ (ftrEnd ++ (L ++ dashNL)))) := by
      simp [pemText, List.append_assoc]
    rw [hs, List.drop_left' (by simp [hdrBegin]; omega)]
    exact List.prefix_append dashNL _
  · intro j hj hpre
    have hchar : ∀ k, k < 6 → (pemText L B)[j + k]? = dashNL[k]? :=
      fun k hk => prefix_getElem hpre (by rw [show dashNL.length = 6 from rfl]; exact hk)
    rcases Nat.lt_or_ge j 11 with h11 | h11
    · have e0 : hdrBegin[j]? = some 45 := by
        rw [← pem_getElem_hdr L B h11]
        have := hchar 0 (by omega)
        rw [Nat.add_zero] at this
        rw [this]
        rfl
      have hj5 : j < 5 :=
        (by decide : ∀ m, m < 11 → hdrBegin[m]? = some 45 → m < 5) j h11 e0
      have e5 : hdrBegin[j + 5]? = some 10 := by
        rw [← pem_getElem_hdr L B (by omega)]
        rw [hchar 5 (by omega)]
        rfl
      exact (by decide : ∀ m, m < 11 → ¬ hdrBegin[m]? = some 10) (j + 5)
        (by omega) e5
    · have e0 : L[j - 11]? = some 45 := by
        rw [← pem_getElem_lbl L B h11 hj]
        have := hchar 0 (by omega)
        rw [Nat.add_zero] at this
        rw [this]
        rfl
      obtain ⟨hlt, heq⟩ := List.getElem?_eq_some.mp e0
      exact hL 45 (heq ▸ List.getElem_mem hlt) rfl

theorem ftr_getElem_ftr (L : List Nat) {j : Nat} (hj : j < 10) :
    (ftrEnd ++ (L ++ dashNL))[j]? = ftrEnd[j]? := by
  rw [List.getElem?_append, if_pos (by rw [show ftrEnd.length = 10 from rfl]; omega)]

theorem ftr_getElem_lbl (L : List Nat) {j : Nat} (h1 : 10 ≤ j)
    (h2 : j < 10 + L.length) : (ftrEnd ++ (L ++ dashNL))[j]? = L[j - 10]? := by
  rw [List.getElem?_append_right (by rw [show ftrEnd.length = 10 from rfl]; omega)]
  rw [show ftrEnd.length = 10 from rfl]
  rw [List.getElem?_append, if_pos (by omega)]

theorem ftr_no_BEGIN (L : List Nat) (hL : ∀ c ∈ L, c ≠ 45) :
    ∀ j, ¬ patBEGIN <+: (ftrEnd ++ (L ++ dashNL)).drop j := by
  intro j hpre
  have hlen := prefix_length_le hpre
  rw [show patBEGIN.length = 10 from rfl] at hlen
  have hFlen : (ftrEnd ++ (L ++ dashNL)).length = 16 + L.length := by
    simp [ftrEnd, dashNL]
    omega
  rw [hFlen] at hlen
  have hchar : ∀ k, k < 10 → (ftrEnd ++ (L ++ dashNL))[j + k]? = patBEGIN[k]? :=
    fun k hk => prefix_getElem hpre (by rw [show patBEGIN.length = 10 from rfl]; exact hk)
  rcases Nat.lt_or_ge j 10 with h10 | h10
  · have e0 : ftrEnd[j]? = some 45 := by
      rw [← ftr_getElem_ftr L h10]
      have := hchar 0 (by omega)
      rw [Nat.add_zero] at this
      rw [this]
      rfl
    have hj15 : 1 ≤ j ∧ j ≤ 5 :=
      (by decide : ∀ m, m < 10 → ftrEnd[m]? = some 45 → 1 ≤ m ∧ m ≤ 5) j h10 e0
    have e6 : patBEGIN[6 - j]? = some 69 := by
      have h6 := hchar (6 - j) (by omega)
      rw [show j + (6 - j) = 6 by omega] at h6
      rw [← h6, ftr_getElem_ftr L (by omega)]
      rfl
    exact (by decide : ∀ m, 1 ≤ m → m ≤ 5 → ¬ patBEGIN[m]? = some 69) (6 - j)
      (by omega) (by omega) e6
  · rcases Nat.lt_or_ge j (10 + L.length) with hlab | hbig
    · have e0 : L[j - 10]? = some 45 := by
        rw [← ftr_getElem_lbl L h10 hlab]
        have := hchar 0 (by omega)
        rw [Nat.add_zero] at this
        rw [this]
        rfl
      obtain ⟨hlt, heq⟩ := List.getElem?_eq_some.mp e0
      exact hL 45 (heq ▸ List.getElem_mem hlt) rfl
    · omega

theorem tail_no_BEGIN (L B : List Nat) (hL : ∀ c ∈ L, c ≠ 45)
    (hB : ∀ c ∈ B, c ≠ 45) :
    ∀ j, ¬ patBEGIN <+: (B ++ (ftrEnd ++ (L ++ dashNL))).drop j := by
  intro j hpre
  rcases Nat.lt_or_ge j B.length with hj | hj
  · have e0 : B[j]? = some 45 := by
      have := prefix_getElem hpre (k := 0) (by decide)
      rw [Nat.add_zero] at this
      rw [List.getElem?_append, if_pos hj] at this
      rw [this]
      rfl
    obtain ⟨hlt, heq⟩ := List.getElem?_eq_some.mp e0
    exact hB 45 (heq ▸ List.getElem_mem hlt) rfl
  · rw [show j = B.length + (j - B.length) by omega, List.drop_append] at hpre
    exact ftr_no_BEGIN L hL (j - B.length) hpre

theorem ftr_no_dash5_mid (L : List Nat) (hL : ∀ c ∈ L, c ≠ 45) :
    ∀ j, 2 ≤ j → j ≤ 5 + L.length →
      ¬ patDash5 <+: (ftrEnd ++ (L ++ dashNL)).drop j := by
  intro j hj2 hj5 hpre
  have hchar : ∀ k, k < 5 → (ftrEnd ++ (L ++ dashNL))[j + k]? = patDash5[k]? :=
    fun k hk => prefix_getElem hpre (by rw [show patDash5.length = 5 from rfl]; exact hk)
  rcases Nat.lt_or_ge j 10 with h10 | h10
  · have e0 : ftrEnd[j]? = some 45 := by
      rw [← ftr_getElem_ftr L h10]
      have := hchar 0 (by omega)
      rw [Nat.add_zero] at this
      rw [this]
      rfl
    have hj15 : 1 ≤ j ∧ j ≤ 5 :=
      (by decide : ∀ m, m < 10 → ftrEnd[m]? = some 45 → 1 ≤ m ∧ m ≤ 5) j h10 e0
    have e6 : patDash5[6 - j]? = some 69 := by
      have h6 := hchar (6 - j) (by omega)
      rw [show j + (6 - j) = 6 by omega] at h6
      rw [← h6, ftr_getElem_ftr L (by omega)]
      rfl
    exact (by decide : ∀ m, 1 ≤ m → m ≤ 4 → ¬ patDash5[m]? = some 69) (6 - j)
      (by omega) (by omega) e6
  · rcases Nat.lt_or_ge j (10 + L.length) with hlab | hbig
    · have e0 : L[j - 10]? = some 45 := by
        rw [← ftr_getElem_lbl L h10 hlab]
        have := hchar 0 (by omega)
        rw [Nat.add_zero] at this
        rw [this]
        rfl
      obtain ⟨hlt, heq⟩ := List.getElem?_eq_some.mp e0
      exact hL 45 (heq ▸ List.getElem_mem hlt) rfl
    · omega

theorem pem_rfind_outer (L B : List Nat) :
    rfindAux (pemText L B) patDash5 (pemText L B).length (pemText L B).length
      = some ((pemText L B).length - 6) := by
  have hSlen := pemText_length L B
  have hsplit : pemText L B
      = (hdrBegin ++ (L ++ (dashNL ++ (B ++ (ftrEnd ++ L))))) ++ dashNL := by
    simp [pemText, List.append_assoc]
  have hplen : (hdrBegin ++ (L ++ (dashNL ++ (B ++ (ftrEnd ++ L))))).length
      = (pemText L B).length - 6 := by
    simp [hdrBegin, dashNL, ftrEnd, hSlen]
    omega
  apply rfindAux_eq_some
  · rw [show patDash5.length = 5 from rfl]; omega
  · rw [show (pemText L B).length - 6
        = (hdrBegin ++ (L ++ (dashNL ++ (B ++ (ftrEnd ++ L))))).length from
      hplen.symm]
    rw [hsplit, List.drop_left]
    exact ⟨[10], rfl⟩
  · omega
  · rintro j h1 h2 ⟨h3, hpre⟩
    rw [show patDash5.length = 5 from rfl] at h3
    have hj : j = (pemText L B).length - 5 := by omega
    subst hj
    rw [show (pemText L B).length - 5
        = (hdrBegin ++ (L ++ (dashNL ++ (B ++ (ftrEnd ++ L))))).length + 1 from by
      rw [hplen]; omega] at hpre
    rw [hsplit, List.drop_append] at hpre
    exact absurd hpre (by decide)

theorem pem_rfind_inner (L B : List Nat) (hL : ∀ c ∈ L, c ≠ 45) :
    rfindAux (pemText L B) patDash5 ((pemText L B).length - 6)
      (pemText L B).length = some (18 + L.length + B.length) := by
  have hSlen := pemText_length L B
  have hsplit : pemText L B
      = (hdrBegin ++ (L ++ (dashNL ++ B))) ++ (ftrEnd ++ (L ++ dashNL)) := by
    simp [pemText, List.append_assoc]
  have hplen : (hdrBegin ++ (L ++ (dashNL ++ B))).length
      = 17 + L.length + B.length := by
    simp [hdrBegin, dashNL]
    omega
  apply rfindAux_eq_some
  · rw [show patDash5.length = 5 from rfl]; omega
  · rw [hsplit]
    rw [show 18 + L.length + B.length
        = (hdrBegin ++ (L ++ (dashNL ++ B))).length + 1 from by rw [hplen]; omega]
    rw [List.drop_append]
    rw [show (ftrEnd ++ (L ++ dashNL)).drop 1
        = patDash5 ++ ([69, 78, 68, 32] ++ (L ++ dashNL)) from by
      simp only [ftrEnd, patDash5]; rfl]
    exact List.prefix_append patDash5 _
  · omega
  · rintro j h1 h2 ⟨h3, hpre⟩
    rw [show patDash5.length = 5 from rfl] at h3
    rw [hsplit] at hpre
    rw [show j = (hdrBegin ++ (L ++ (dashNL ++ B))).length
        + (j - (17 + L.length + B.length)) from by rw [hplen]; omega] at hpre
    rw [List.drop_append] at hpre
    exact ftr_no_dash5_mid L hL (j - (17 + L.length + B.length))
      (by omega) (by omega) hpre

theorem pem_slice (L B : List Nat) :
    ((pemText L B).take (18 + L.length + B.length)).drop (17 + L.length)
      = B ++ [10] := by
  have hsplit : pemText L B
      = (hdrBegin ++ (L ++ dashNL)) ++ (B ++ (ftrEnd ++ (L ++ dashNL))) := by
    simp [pemText, List.append_assoc]
  have hplen : (hdrBegin ++ (L ++ dashNL)).length = 17 + L.length := by
    simp [hdrBegin, dashNL]
    omega
  rw [hsplit]
  rw [show 18 + L.length + B.length
      = (hdrBegin ++ (L ++ dashNL)).length + (B.length + 1) from by
    rw [hplen]; omega]
  rw [List.take_append, List.drop_left' hplen, List.take_append]
  rw [show (ftrEnd ++ (L ++ dashNL)).take 1 = [10] from by
    simp only [ftrEnd]; rfl]

/-- Claim C8 (amended): for every byte string and every label containing
neither `'-'` nor CR characters, decoding the PEM text produced by `der2pem`
with the single-object decoder `pem2der` yields exactly the input bytes. -/
theorem der2pem_pem2der_roundtrip (x L : List Nat) (hx : ∀ b ∈ x, b < 256)
    (hL : ∀ c ∈ L, c ≠ 45 ∧ c ≠ 13) :
    pem2der (der2pem x L) = some x := by
  have hEchars : ∀ c ∈ b64encode x, c = 61 ∨ (b64val c).isSome = true :=
    b64encode_mem x
  have hBchars : ∀ c ∈ joinNL (chunks64 (b64encode x)),
      c = 10 ∨ c = 61 ∨ (b64val c).isSome = true :=
    joinNL_chunks_chars (b64encode x) hEchars
  have hB45 : ∀ c ∈ joinNL (chunks64 (b64encode x)), c ≠ 45 :=
    fun c hc => (bchar_ne (hBchars c hc)).1
  have hB13 : ∀ c ∈ joinNL (chunks64 (b64encode x)), c ≠ 13 :=
    fun c hc => (bchar_ne (hBchars c hc)).2
  have hL45 : ∀ c ∈ L, c ≠ 45 := fun c hc => (hL c hc).1
  set B := joinNL (chunks64 (b64encode x)) with hBdef
  have hS : der2pem x L = pemText L B := by
    simp [der2pem, pemText, List.append_assoc]
  rw [hS]
  have hSlen := pemText_length L B
  simp only [pem2der]
  have hfilter : (pemText L B).filter (fun c => decide (c ≠ 13)) = pemText L B := by
    rw [List.filter_eq_self]
    intro a ha
    simp only [decide_eq_true_iff]
    simp only [pemText, List.mem_append] at ha
    rcases ha with ha | ha | ha | ha | ha | ha | ha
    · exact (by decide : ∀ c ∈ hdrBegin, c ≠ 13) a ha
    · exact (hL a ha).2
    · exact (by decide : ∀ c ∈ dashNL, c ≠ 13) a ha
    · exact hB13 a ha
    · exact (by decide : ∀ c ∈ ftrEnd, c ≠ 13) a ha
    · exact (hL a ha).2
    · exact (by decide : ∀ c ∈ dashNL, c ≠ 13) a ha
  rw [hfilter]
  have hfind : pyFind (pemText L B) dashNL = ((11 + L.length : Nat) : Int) := by
    unfold pyFind
    rw [pem_find_dashNL L B hL45]
  rw [hfind]
  have hfindfrom : pyFindFrom (pemText L B) patBEGIN
      (((11 + L.length : Nat) : Int) + 6) = -1 := by
    unfold pyFindFrom
    have hclamp : pyClamp (pemText L B).length (((11 + L.length : Nat) : Int) + 6)
        = 17 + L.length := by
      unfold pyClamp
      rw [if_neg (by push_cast; omega)]
      rw [show (((11 + L.length : Nat) : Int) + 6).toNat = 17 + L.length from by
        push_cast; omega]
      omega
    rw [hclamp]
    have hdrop : (pemText L B).drop (17 + L.length)
        = B ++ (ftrEnd ++ (L ++ dashNL)) := by
      have hsp : pemText L B = (hdrBegin ++ (L ++ dashNL))
          ++ (B ++ (ftrEnd ++ (L ++ dashNL))) := by
        simp [pemText, List.append_assoc]
      rw [hsp, List.drop_left' (by simp [hdrBegin, dashNL]; omega)]
    rw [hdrop, findSub_eq_none_of _ (tail_no_BEGIN L B hL45 hB45)]
  rw [hfindfrom]
  rw [if_neg (fun h => h rfl)]
  have houter : pyRfind (pemText L B) patDash5 ((pemText L B).length : Int)
      = (((pemText L B).length - 6 : Nat) : Int) := by
    unfold pyRfind
    have hclamp : pyClamp (pemText L B).length ((pemText L B).length : Int)
        = (pemText L B).length := by
      unfold pyClamp
      rw [if_neg (by omega)]
      simp
    rw [hclamp, pem_rfind_outer L B]
  rw [houter]
  have hinner : pyRfind (pemText L B) patDash5
      (((pemText L B).length - 6 : Nat) : Int)
      = ((18 + L.length + B.length : Nat) : Int) := by
    unfold pyRfind
    have hclamp : pyClamp (pemText L B).length
        (((pemText L B).length - 6 : Nat) : Int) = (pemText L B).length - 6 := by
      unfold pyClamp
      rw [if_neg (by omega)]
      rw [Int.toNat_natCast]
      omega
    rw [hclamp, pem_rfind_inner L B hL45]
  rw [hinner]
  have hslice : pySlice (pemText L B) (((11 + L.length : Nat) : Int) + 6)
      ((18 + L.length + B.length : Nat) : Int) = B ++ [10] := by
    unfold pySlice
    rw [show pyClamp (pemText L B).length (((11 + L.length : Nat) : Int) + 6)
        = 17 + L.length from by
      unfold pyClamp
      rw [if_neg (by push_cast; omega)]
      rw [show (((11 + L.length : Nat) : Int) + 6).toNat = 17 + L.length from by
        push_cast; omega]
      omega]
    rw [show pyClamp (pemText L B).length ((18 + L.length + B.length : Nat) : Int)
        = 18 + L.length + B.length from by
      unfold pyClamp
      rw [if_neg (by push_cast; omega)]
      rw [Int.toNat_natCast]
      omega]
    exact pem_slice L B
  rw [hslice]
  unfold b64decode
  rw [show b64Discard (B ++ [10]) = b64encode x from by
    unfold b64Discard
    rw [List.filter_append]
    rw [show List.filter (fun c => (b64val c).isSome || c == 61) [10] = [] from rfl]
    rw [List.append_nil]
    exact b64Discard_joinNL_chunks (b64encode x) hEchars]
  exact decodeQuads_b64encode x hx

/-- Counterexample to claim C8 as stated: with the label `"-----BEGIN"` the
footer line contains a second `"-----BEGIN"`, so `pem2der` raises
("expects only one PEM-encoded object") instead of returning the bytes. -/
theorem der2pem_claim_counterexample :
    pem2der (der2pem [] lblBad) ≠ some [] := by decide

/-- Witness for the amended C8 at concrete inputs (`x = [1,2,3]`,
label `"CERT"`). -/
theorem der2pem_pem2der_roundtrip_witness :
    pem2der (der2pem [1, 2, 3] [67, 69, 82, 84]) = some [1, 2, 3] :=
  der2pem_pem2der_roundtrip [1, 2, 3] [67, 69, 82, 84] (by decide) (by decide)
